import Mathlib

/-!
# Verification of the VSModManager mod-inspection tool

A shallow embedding of `vsmodmanager.py`: a `Mod` record parsed from a zip
archive's `modinfo.json`, and a `ModManager` that scans a mods directory,
builds the record list, and answers lookups.

Modelling conventions:
* A JSON value is the inductive `Json` (numbers restricted to integers; no
  claim depends on non-integral numbers).
* A zip entry's textual content is represented by the result of `json.loads`
  on it: `Option Json`, `none` meaning the bytes are not valid JSON.
* Python dicts are ordered association lists with unique keys; insertion
  keeps the first position of a key and overwrites its value (`dictInsert`).
* Raising an exception is `Except.error` carrying the Python exception kind;
  methods whose bodies contain no attribute assignment are translated as
  state-preserving functions.
-/

namespace VSModManager

/-- A JSON value as produced by `json.loads` (numbers restricted to `Int`). -/
inductive Json where
  | str : String → Json
  | num : Int → Json
  | bool : Bool → Json
  | null : Json
  | arr : List Json → Json
  | obj : List (String × Json) → Json

/-- Python exception kinds that the embedded code can raise. -/
inductive PyError where
  /-- `zipfile.BadZipFile`: the file is not a valid zip container. -/
  | badZipFile
  /-- `KeyError`: the requested zip entry does not exist. -/
  | keyError
  /-- `json.JSONDecodeError`: the entry content is not valid JSON. -/
  | jsonDecodeError
  /-- `AttributeError`: attribute access (`.items()`, `.lower()`) on a value
  that does not support it. -/
  | attributeError
  deriving Repr, DecidableEq

/-- Python `str.lower()`.  Extensionally equal to `String.toLower` (see
`pyLower_eq_toLower`), but written over `String.data` so that it reduces in
the kernel (`String.map` recurses on byte positions and does not). -/
def pyLower (s : String) : String := ⟨s.data.map Char.toLower⟩

theorem pyLower_eq_toLower (s : String) : pyLower s = s.toLower :=
  (String.map_eq _ _).symm

/-- First value stored under key `k` in an ordered association list
(Python dict lookup `d[k]`; on dict-invariant lists the key is unique). -/
def dictGet (d : List (String × Json)) (k : String) : Option Json :=
  (d.find? (fun p => p.1 == k)).map (fun p => p.2)

/-- Python dict insertion `d[k] = v`: overwrite the value at the first
occurrence of `k`, keeping its position, else append `(k, v)` at the end. -/
def dictInsert (d : List (String × Json)) (k : String) (v : Json) :
    List (String × Json) :=
  if d.any (fun p => p.1 == k) then
    d.map (fun p => if p.1 == k then (k, v) else p)
  else
    d ++ [(k, v)]

/-- The dict comprehension `{k.lower(): v for k, v in raw.items()}` from
`Mod._parse_archive`. -/
def lowerKeys (raw : List (String × Json)) : List (String × Json) :=
  raw.foldl (fun d p => dictInsert d (pyLower p.1) p.2) []

/-- A file in the mods directory, as the scanner sees it.  `isZip` is the
result of `zipfile.is_zipfile`; `entries` maps each zip entry name to the
`json.loads` result of its content (meaningful only when `isZip`). -/
structure DirEntry where
  path : String
  isZip : Bool
  entries : List (String × Option Json)

/-- Read a zip entry by name (`archive.read(name)`), as its parsed content. -/
def DirEntry.readEntry (a : DirEntry) (name : String) : Option (Option Json) :=
  (a.entries.find? (fun p => p.1 == name)).map (fun p => p.2)

/-- The `Mod` record: archive path plus the lowercased-key metadata dict. -/
structure Mod where
  archive : String
  modinfo : List (String × Json)

namespace Mod

/-- `Mod._parse_archive` / `Mod.__init__`: open the archive as a zip
(`BadZipFile` if not one), read the `modinfo.json` entry (`KeyError` if
absent), parse it as JSON (`JSONDecodeError` if invalid), then build
`modinfo` by lowercasing every key of the resulting object (`.items()` on a
non-object raises `AttributeError`). -/
def parse_archive (a : DirEntry) : Except PyError Mod :=
  if a.isZip then
    match a.readEntry "modinfo.json" with
    | none => .error .keyError
    | some none => .error .jsonDecodeError
    | some (some (.obj raw)) => .ok ⟨a.path, lowerKeys raw⟩
    | some (some _) => .error .attributeError
  else
    .error .badZipFile

/-- `Mod.__getattr__`: return `self.modinfo[name]`, or `''` when the lookup
raises.  Total: every exception is caught and turned into `''`. -/
def getattr (m : Mod) (name : String) : Json :=
  match dictGet m.modinfo name with
  | some v => v
  | none => .str ""

end Mod

/-- Python truthiness of a JSON value: `''`, `0`, `False`, `None`, `[]` and
the empty dict are falsy, everything else truthy. -/
def pyTruthy : Json → Bool
  | .str s => s != ""
  | .num n => n != 0
  | .bool b => b
  | .null => false
  | .arr l => !l.isEmpty
  | .obj l => !l.isEmpty

/-- Python `x or d` with a string default `d`, as used in `print_default`. -/
def pyOr (v : Json) (d : String) : Json :=
  if pyTruthy v then v else .str d

mutual

/-- Python `repr` of a JSON value (strings in single quotes; no escaping is
modelled, matching Python on quote- and backslash-free strings, which is all
that occurs in this program's data). -/
def pyRepr : Json → String
  | .str s => "'" ++ s ++ "'"
  | .num n => toString n
  | .bool b => if b then "True" else "False"
  | .null => "None"
  | .arr l => "[" ++ pyReprList l ++ "]"
  | .obj l => "\x7b" ++ pyReprObj l ++ "\x7d"

/-- Comma-separated `repr`s of the elements of a Python list. -/
def pyReprList : List Json → String
  | [] => ""
  | [v] => pyRepr v
  | v :: vs => pyRepr v ++ ", " ++ pyReprList vs

/-- Comma-separated `repr`ed key/value pairs of a Python dict. -/
def pyReprObj : List (String × Json) → String
  | [] => ""
  | [(k, v)] => "'" ++ k ++ "': " ++ pyRepr v
  | (k, v) :: kvs => "'" ++ k ++ "': " ++ pyRepr v ++ ", " ++ pyReprObj kvs

end

/-- Python `str` of a JSON value, as used by `str.format` and f-strings:
a string renders as itself, containers via `repr` of their elements. -/
def pyStr : Json → String
  | .str s => s
  | v => pyRepr v

namespace Mod

/-- `Mod.print_default`: the single line
`'{name} ({modid}) [{version}] - {desc}'` printed by the default summary,
with each Python-falsy field replaced by its placeholder. -/
def print_default (m : Mod) : String :=
  pyStr (pyOr (m.getattr "name") "UNKNOWN") ++ " (" ++
  pyStr (pyOr (m.getattr "modid") "ModID unknown") ++ ") [" ++
  pyStr (pyOr (m.getattr "version") "Version unknown") ++ "] - " ++
  pyStr (pyOr (m.getattr "description") "No description")

/-- `Mod.print_all`: the lines printed by the full dump — the archive-path
header, a blank line, then one `k: v` line per metadata entry in stored
order. -/
def print_all (m : Mod) : List String :=
  ("Mod located at \"" ++ m.archive ++ "\":") :: "" ::
    m.modinfo.map (fun p => p.1 ++ ": " ++ pyStr p.2)

/-- `Mod.print_default` as a state transformer: the method body only calls
`print`, assigning no attribute, so the record is returned unchanged next to
the lines written to standard output. -/
def print_default_run (m : Mod) : Mod × List String :=
  (m, [m.print_default])

/-- `Mod.print_all` as a state transformer: the method body only calls
`print`, assigning no attribute, so the record is returned unchanged next to
the lines written to standard output. -/
def print_all_run (m : Mod) : Mod × List String :=
  (m, m.print_all)

/-- The observable outcome of calling one of the stub methods. -/
inductive StubOutcome where
  /-- The call returns `None` without raising. -/
  | returnsNone
  /-- The call raises `NotImplementedError`. -/
  | raisesNotImplemented
  deriving Repr, DecidableEq

/-- `Mod._check_update`: a body of only a docstring and `pass`. -/
def check_update (_ : Mod) : StubOutcome := .returnsNone

/-- `Mod.remove`: a body of only a docstring. -/
def remove (_ : Mod) : StubOutcome := .returnsNone

/-- `Mod.update`: a body of only a docstring and `pass`. -/
def update (_ : Mod) (_version : String) : StubOutcome := .returnsNone

end Mod

/-- The `ModManager` scanner state: the data directory, the mods directory
and the current list of `Mod` records. -/
structure ModManager where
  data_path : String
  mods_path : String
  mods : List Mod

namespace ModManager

/-- The list comprehension `[Mod(f) for f in mod_archives]`: construct a
record per archive left to right, the first raised `ParseError` escaping. -/
def buildMods : List DirEntry → Except PyError (List Mod)
  | [] => .ok []
  | f :: fs => do
    let m ← Mod.parse_archive f
    let ms ← buildMods fs
    pure (m :: ms)

/-- `ModManager._mods_refresh` on a directory listing: keep the files that
`zipfile.is_zipfile` accepts, then build one `Mod` per kept file. -/
def mods_refresh_list (dir : List DirEntry) : Except PyError (List Mod) :=
  buildMods (dir.filter (fun f => f.isZip))

/-- `ModManager._mods_refresh` as a state transformer: the new list is fully
constructed by `mods_refresh_list` before `self.mods` is assigned, so a
raised `ParseError` (returned alongside) leaves the stored list unchanged. -/
def mods_refresh (mgr : ModManager) (dir : List DirEntry) :
    ModManager × Option PyError :=
  match mods_refresh_list dir with
  | .ok ms => ({ mgr with mods := ms }, none)
  | .error e => (mgr, some e)

/-- `mod.name.lower()` on an arbitrary attribute value: Python `str.lower`
exists only on strings; on any other value the attribute access raises
`AttributeError`. -/
def jsonLower : Json → Except PyError String
  | .str s => .ok (pyLower s)
  | _ => .error .attributeError

/-- The list comprehension of `_mods_get`: walk the records left to right,
lower each record's `name` and then its `modid` (the first raised
`AttributeError` escaping) and keep the records where either equals the
lowercased query `q`. -/
def selectMods (q : String) : List Mod → Except PyError (List Mod)
  | [] => .ok []
  | m :: ms => do
    let n ← jsonLower (m.getattr "name")
    let i ← jsonLower (m.getattr "modid")
    let rest ← selectMods q ms
    pure (if q == n || q == i then m :: rest else rest)

/-- `ModManager._mods_get`: lowercase the query, keep the mods whose
lowercased `name` or `modid` equals it. -/
def mods_get (mgr : ModManager) (modid : String) : Except PyError (List Mod) :=
  selectMods (pyLower modid) mgr.mods

/-- `ModManager.mod_install`: a body of only a docstring and `pass`. -/
def mod_install (_ : ModManager) : Mod.StubOutcome := .returnsNone

/-- `ModManager.mod_remove`: a body of only a docstring and `pass`. -/
def mod_remove (_ : ModManager) (_modid : String) : Mod.StubOutcome :=
  .returnsNone

end ModManager

/-- The string content of a record field, for records whose fields hold
strings: an absent field reads as `''` (and a non-string value, excluded by
the theorems' hypotheses, also reads as `''`). -/
def fieldStr (m : Mod) (name : String) : String :=
  match m.getattr name with
  | .str s => s
  | _ => ""

/-- Modelled from the spec's words for the lookup claims: a record matches a
query when its `name` or its `modid` field equals the query under
case-insensitive comparison. -/
def specMatch (q : String) (m : Mod) : Bool :=
  pyLower (fieldStr m "name") == pyLower q ||
  pyLower (fieldStr m "modid") == pyLower q

/-! ## Helper lemmas -/

theorem char_toNat_ofNat_valid (n : Nat) (h : n.isValidChar) :
    (Char.ofNat n).toNat = n := by
  rw [Char.ofNat, dif_pos h]
  rfl

theorem charToLower_idem (c : Char) : c.toLower.toLower = c.toLower := by
  by_cases h : c.toNat ≥ 65 ∧ c.toNat ≤ 90
  · have h1 : c.toLower = Char.ofNat (c.toNat + 32) := by
      simp only [Char.toLower]
      rw [if_pos h]
    have ht : (Char.ofNat (c.toNat + 32)).toNat = c.toNat + 32 :=
      char_toNat_ofNat_valid _ (Or.inl (by omega))
    rw [h1]
    simp only [Char.toLower]
    rw [ht, if_neg (by omega)]
  · have h1 : c.toLower = c := by
      simp only [Char.toLower]
      rw [if_neg h]
    rw [h1, h1]

theorem pyLower_idem (s : String) : pyLower (pyLower s) = pyLower s := by
  show String.mk ((s.data.map Char.toLower).map Char.toLower) = _
  rw [List.map_map]
  have hc : Char.toLower ∘ Char.toLower = Char.toLower := funext charToLower_idem
  rw [hc]
  rfl

theorem pyLower_empty : pyLower "" = "" := rfl

theorem pyLower_eq_empty_iff (s : String) : pyLower s = "" ↔ s = "" := by
  constructor
  · intro h
    have hd : (pyLower s).data = ("" : String).data := congrArg String.data h
    simp only [pyLower] at hd
    cases s with
    | mk l =>
      cases l with
      | nil => rfl
      | cons c cs => simp at hd
  · intro h
    rw [h]
    rfl

theorem dictInsert_of_not_mem (d : List (String × Json)) (k : String)
    (v : Json) (h : k ∉ d.map Prod.fst) : dictInsert d k v = d ++ [(k, v)] := by
  unfold dictInsert
  rw [if_neg]
  simp only [List.any_eq_true, beq_iff_eq, not_exists, not_and]
  intro p hp hpk
  exact h (hpk ▸ List.mem_map_of_mem Prod.fst hp)

theorem mem_keys_dictInsert (d : List (String × Json)) (k : String) (v : Json)
    (x : String) (hx : x ∈ (dictInsert d k v).map Prod.fst) :
    x ∈ d.map Prod.fst ∨ x = k := by
  unfold dictInsert at hx
  split at hx
  · simp only [List.map_map, List.mem_map, Function.comp] at hx
    obtain ⟨p, hp, hpx⟩ := hx
    by_cases hpk : p.1 == k
    · rw [if_pos hpk] at hpx
      exact Or.inr hpx.symm
    · rw [if_neg hpk] at hpx
      exact Or.inl (hpx ▸ List.mem_map_of_mem Prod.fst hp)
  · simp only [List.map_append, List.mem_append, List.map_cons, List.map_nil,
      List.mem_singleton] at hx
    exact hx

theorem dictGet_eq_none (d : List (String × Json)) (k : String)
    (h : k ∉ d.map Prod.fst) : dictGet d k = none := by
  have hf : d.find? (fun p => p.1 == k) = none := by
    rw [List.find?_eq_none]
    intro p hp
    simp only [beq_iff_eq]
    intro hpk
    exact h (hpk ▸ List.mem_map_of_mem Prod.fst hp)
  simp [dictGet, hf]

theorem dictGet_of_nodup_mem (d : List (String × Json)) (k : String) (v : Json)
    (hnd : (d.map Prod.fst).Nodup) (hmem : (k, v) ∈ d) : dictGet d k = some v := by
  induction d with
  | nil => cases hmem
  | cons hd tl ih =>
    simp only [List.map_cons, List.nodup_cons] at hnd
    rcases List.mem_cons.mp hmem with heq | htl
    · subst heq
      simp [dictGet, List.find?_cons_of_pos]
    · have hne : hd.1 ≠ k := by
        intro hk
        exact hnd.1 (hk ▸ List.mem_map_of_mem Prod.fst htl)
      have := ih hnd.2 htl
      simp only [dictGet] at this ⊢
      rw [List.find?_cons_of_neg _ (by simpa using hne)]
      exact this

theorem lowerKeys_aux (raw : List (String × Json)) :
    ∀ acc : List (String × Json),
      (raw.map fun p => pyLower p.1).Nodup →
      (∀ p ∈ raw, pyLower p.1 ∉ acc.map Prod.fst) →
      raw.foldl (fun d p => dictInsert d (pyLower p.1) p.2) acc
        = acc ++ raw.map (fun p => (pyLower p.1, p.2)) := by
  induction raw with
  | nil => simp
  | cons hd tl ih =>
    intro acc hnd hdisj
    simp only [List.map_cons, List.nodup_cons] at hnd
    simp only [List.foldl_cons]
    rw [dictInsert_of_not_mem _ _ _ (hdisj hd (List.mem_cons_self _ _))]
    rw [ih (acc ++ [(pyLower hd.1, hd.2)]) hnd.2 ?_]
    · simp
    · intro p hp
      simp only [List.map_append, List.mem_append, List.map_cons, List.map_nil,
        List.mem_singleton]
      rintro (hacc | hhd)
      · exact hdisj p (List.mem_cons_of_mem _ hp) hacc
      · exact hnd.1 (hhd ▸ List.mem_map_of_mem (fun p => pyLower p.1) hp)

theorem lowerKeys_of_nodup (raw : List (String × Json))
    (h : (raw.map fun p => pyLower p.1).Nodup) :
    lowerKeys raw = raw.map (fun p => (pyLower p.1, p.2)) := by
  simpa using lowerKeys_aux raw [] h (by simp)

theorem keys_lowerKeys_aux (raw : List (String × Json)) :
    ∀ acc : List (String × Json),
      (∀ x ∈ acc.map Prod.fst, pyLower x = x) →
      ∀ x ∈ (raw.foldl (fun d p => dictInsert d (pyLower p.1) p.2) acc).map
          Prod.fst, pyLower x = x := by
  induction raw with
  | nil => exact fun acc hacc => hacc
  | cons hd tl ih =>
    intro acc hacc
    simp only [List.foldl_cons]
    refine ih (dictInsert acc (pyLower hd.1) hd.2) ?_
    intro x hx
    rcases mem_keys_dictInsert _ _ _ _ hx with hmem | hins
    · exact hacc x hmem
    · rw [hins]
      exact pyLower_idem hd.1

theorem keys_lowerKeys_lower (raw : List (String × Json)) :
    ∀ x ∈ (lowerKeys raw).map Prod.fst, pyLower x = x :=
  keys_lowerKeys_aux raw [] (by simp)

theorem string_beq_comm (a b : String) : (a == b) = (b == a) := by
  by_cases h : a = b
  · rw [h]
  · have h' : b ≠ a := fun hba => h hba.symm
    simp [h, h']

theorem buildMods_ok (l : List DirEntry)
    (h : ∀ f ∈ l, ∃ m, Mod.parse_archive f = .ok m) :
    ∃ ms, ModManager.buildMods l = .ok ms ∧ ms.length = l.length ∧
      ∀ (i : Nat) (h1 : i < l.length) (h2 : i < ms.length),
        Mod.parse_archive (l.get ⟨i, h1⟩) = .ok (ms.get ⟨i, h2⟩) := by
  induction l with
  | nil => exact ⟨[], rfl, rfl, fun i h1 _ => absurd h1 (by simp)⟩
  | cons f fs ih =>
    obtain ⟨m, hm⟩ := h f (List.mem_cons_self _ _)
    obtain ⟨ms, hms, hlen, hidx⟩ := ih (fun g hg => h g (List.mem_cons_of_mem _ hg))
    refine ⟨m :: ms, ?_, by simp [hlen], ?_⟩
    · simp only [ModManager.buildMods, hm, hms]
      rfl
    · intro i h1 h2
      cases i with
      | zero => simpa using hm
      | succ j => simpa using hidx j (by simpa using h1) (by simpa using h2)

theorem buildMods_error (l : List DirEntry) (f : DirEntry) (hf : f ∈ l)
    (e : PyError) (he : Mod.parse_archive f = .error e) :
    ∃ e', ModManager.buildMods l = .error e' := by
  induction l with
  | nil => cases hf
  | cons g gs ih =>
    rcases List.mem_cons.mp hf with rfl | hgs
    · refine ⟨e, ?_⟩
      simp only [ModManager.buildMods, he]
      rfl
    · cases hg : Mod.parse_archive g with
      | error e'' =>
        refine ⟨e'', ?_⟩
        simp only [ModManager.buildMods, hg]
        rfl
      | ok m =>
        obtain ⟨e', he'⟩ := ih hgs
        refine ⟨e', ?_⟩
        simp only [ModManager.buildMods, hg, he']
        rfl

theorem selectMods_cons_str (q s t : String) (m : Mod) (ms : List Mod)
    (hs : m.getattr "name" = .str s) (ht : m.getattr "modid" = .str t) :
    ModManager.selectMods q (m :: ms) = (ModManager.selectMods q ms).map
      (fun rest => if q == pyLower s || q == pyLower t then m :: rest
        else rest) := by
  simp only [ModManager.selectMods, hs, ht, ModManager.jsonLower]
  cases ModManager.selectMods q ms <;> rfl

theorem selectMods_ok (q : String) (l : List Mod)
    (h : ∀ m ∈ l, (∃ s, m.getattr "name" = .str s) ∧
      (∃ t, m.getattr "modid" = .str t)) :
    ModManager.selectMods q l = .ok (l.filter (fun m =>
      q == pyLower (fieldStr m "name") || q == pyLower (fieldStr m "modid"))) := by
  induction l with
  | nil => rfl
  | cons m ms ih =>
    obtain ⟨⟨s, hs⟩, ⟨t, ht⟩⟩ := h m (List.mem_cons_self _ _)
    have hfs : fieldStr m "name" = s := by simp [fieldStr, hs]
    have hft : fieldStr m "modid" = t := by simp [fieldStr, ht]
    have hrest := ih (fun m' hm' => h m' (List.mem_cons_of_mem _ hm'))
    rw [selectMods_cons_str q s t m ms hs ht, hrest]
    simp only [Except.map, List.filter_cons, hfs, hft]

theorem parse_archive_ok_shape (a : DirEntry) (m : Mod)
    (hm : Mod.parse_archive a = .ok m) :
    a.isZip = true ∧ ∃ raw, a.readEntry "modinfo.json" = some (some (.obj raw))
      ∧ m = ⟨a.path, lowerKeys raw⟩ := by
  unfold Mod.parse_archive at hm
  by_cases hz : a.isZip = true
  · refine ⟨hz, ?_⟩
    rw [if_pos hz] at hm
    cases hr : a.readEntry "modinfo.json" with
    | none => rw [hr] at hm; cases hm
    | some o =>
      rw [hr] at hm
      cases o with
      | none => cases hm
      | some j =>
        cases j with
        | obj raw => exact ⟨raw, rfl, (Except.ok.inj hm).symm⟩
        | str s => cases hm
        | num n => cases hm
        | bool b => cases hm
        | null => cases hm
        | arr l => cases hm
  · rw [if_neg hz] at hm
    cases hm

theorem pyStr_pyOr_str (s d : String) :
    pyStr (pyOr (.str s) d) = if s = "" then d else s := by
  by_cases h : s = ""
  · rw [h]
    rfl
  · have hb : (s != "") = true := by simpa using h
    rw [if_neg h]
    simp [pyOr, pyTruthy, hb, pyStr]

theorem beq_empty_pyLower (s : String) : ("" == pyLower s) = (s == "") := by
  by_cases hs : s = ""
  · rw [hs]
    rfl
  · have h1 : pyLower s ≠ "" := fun hc => hs ((pyLower_eq_empty_iff s).mp hc)
    have h2 : ("" : String) ≠ pyLower s := fun hc => h1 hc.symm
    rw [show ("" == pyLower s) = false by simpa using h2,
      show (s == "") = false by simpa using hs]

/-! ## Claim theorems -/

/-- C1, counterexample: keys are lowercased at parse time, but
`__getattr__` looks the requested name up verbatim, so for an archive whose
`modinfo.json` holds the key `"Name"`, requesting the field `"Name"` returns
`''` instead of the stored value — field lookup is not case-insensitive. -/
theorem getattr_not_case_insensitive :
    Mod.parse_archive
        ⟨"a.zip", true, [("modinfo.json", some (.obj [("Name", .str "x")]))]⟩
      = .ok ⟨"a.zip", [("name", .str "x")]⟩ ∧
    (Mod.mk "a.zip" [("name", .str "x")]).getattr "name" = .str "x" ∧
    (Mod.mk "a.zip" [("name", .str "x")]).getattr "Name" = .str "" ∧
    Json.str "" ≠ Json.str "x" :=
  ⟨rfl, rfl, rfl, fun h => by injection h with h'; exact absurd h' (by decide)⟩

/-- C1, amended: for a record built from an archive whose parsed object has
no two keys colliding after lowercasing, field access using the lowercase
form of a key returns the original metadata value; the lookup itself is
case-sensitive, so any requested name that is not already lowercase returns
the empty string. -/
theorem getattr_lowercase_access (a : DirEntry) (raw : List (String × Json))
    (m : Mod)
    (he : a.readEntry "modinfo.json" = some (some (.obj raw)))
    (hnd : (raw.map fun p => pyLower p.1).Nodup)
    (hm : Mod.parse_archive a = .ok m) :
    (∀ k v, (k, v) ∈ raw → m.getattr (pyLower k) = v) ∧
    (∀ n, pyLower n ≠ n → m.getattr n = .str "") := by
  obtain ⟨-, raw', hraw', hm'⟩ := parse_archive_ok_shape a m hm
  rw [he] at hraw'
  obtain ⟨rfl⟩ : raw' = raw := by
    have := (Option.some.inj hraw')
    exact (Json.obj.inj (Option.some.inj this)).symm
  subst hm'
  have hmod : lowerKeys raw = raw.map (fun p => (pyLower p.1, p.2)) :=
    lowerKeys_of_nodup raw hnd
  constructor
  · intro k v hkv
    have hnd' : ((lowerKeys raw).map Prod.fst).Nodup := by
      rw [hmod, List.map_map]
      simpa [Function.comp] using hnd
    have hmem : (pyLower k, v) ∈ lowerKeys raw := by
      rw [hmod]
      exact List.mem_map_of_mem _ hkv
    simp [Mod.getattr, dictGet_of_nodup_mem _ _ _ hnd' hmem]
  · intro n hn
    have habs : n ∉ (lowerKeys raw).map Prod.fst :=
      fun hmem => hn (keys_lowerKeys_lower raw n hmem)
    simp [Mod.getattr, dictGet_eq_none _ _ habs]

/-- C1, witness for the amended theorem at the archive
`a.zip ↦ {"Name": "x"}`. -/
theorem getattr_lowercase_access_witness :
    (Mod.mk "a.zip" [("name", .str "x")]).getattr (pyLower "Name") = .str "x" ∧
    (Mod.mk "a.zip" [("name", .str "x")]).getattr "NAME" = .str "" := by
  have h := getattr_lowercase_access
    ⟨"a.zip", true, [("modinfo.json", some (.obj [("Name", .str "x")]))]⟩
    [("Name", .str "x")] ⟨"a.zip", [("name", .str "x")]⟩ rfl (by simp) rfl
  exact ⟨h.1 "Name" (.str "x") (by simp), h.2 "NAME" (by decide)⟩

/-- C2: for a record built by `_parse_archive`, requesting any field whose
lowercase form is absent from the metadata mapping returns the empty string
(`getattr` is a total function by its type, so access never fails). -/
theorem getattr_absent_returns_empty (a : DirEntry) (m : Mod) (name : String)
    (hm : Mod.parse_archive a = .ok m)
    (habs : pyLower name ∉ m.modinfo.map Prod.fst) :
    m.getattr name = .str "" := by
  obtain ⟨-, raw, -, hm'⟩ := parse_archive_ok_shape a m hm
  have hkeys : name ∉ m.modinfo.map Prod.fst := by
    intro hmem
    have hl : pyLower name = name := by
      rw [hm'] at hmem
      exact keys_lowerKeys_lower raw name hmem
    refine habs ?_
    rw [hl]
    exact hmem
  simp [Mod.getattr, dictGet_eq_none _ _ hkeys]

/-- C2, witness: on the record parsed from `b.zip ↦ {"ModID": "bare"}`, the
absent field `version` reads as `''`. -/
theorem getattr_absent_returns_empty_witness :
    (Mod.mk "b.zip" [("modid", .str "bare")]).getattr "version" = .str "" := by
  exact getattr_absent_returns_empty
    ⟨"b.zip", true, [("modinfo.json", some (.obj [("ModID", .str "bare")]))]⟩
    (Mod.mk "b.zip" [("modid", .str "bare")]) "version" rfl (by decide)

/-- C3: when every valid zip archive in the directory parses, a refresh
stores exactly one record per valid zip archive, in enumeration order, and
non-zip files are skipped (they are filtered out before construction). -/
theorem mods_refresh_exact (mgr : ModManager) (dir : List DirEntry)
    (h : ∀ f ∈ dir, f.isZip = true → ∃ m, Mod.parse_archive f = .ok m) :
    ∃ ms, mgr.mods_refresh dir = ({ mgr with mods := ms }, none) ∧
      ms.length = (dir.filter (fun f => f.isZip)).length ∧
      ∀ (i : Nat) (h1 : i < (dir.filter (fun f => f.isZip)).length)
        (h2 : i < ms.length),
        Mod.parse_archive ((dir.filter (fun f => f.isZip)).get ⟨i, h1⟩)
          = .ok (ms.get ⟨i, h2⟩) := by
  obtain ⟨ms, hms, hlen, hidx⟩ := buildMods_ok (dir.filter (fun f => f.isZip))
    (fun f hf => h f (List.mem_of_mem_filter hf)
      (by simpa using List.of_mem_filter hf))
  refine ⟨ms, ?_, hlen, hidx⟩
  simp [ModManager.mods_refresh, ModManager.mods_refresh_list, hms]

/-- C3, witness: a directory with one valid zip archive and one non-zip file
refreshes to exactly one record. -/
theorem mods_refresh_exact_witness :
    ∃ ms, (ModManager.mk "/d" "/d/Mods" []).mods_refresh
        [⟨"a.zip", true, [("modinfo.json", some (.obj [("Name", .str "x")]))]⟩,
         ⟨"note.txt", false, []⟩]
      = ({ ModManager.mk "/d" "/d/Mods" [] with mods := ms }, none) ∧
      ms.length = 1 := by
  obtain ⟨ms, hms, hlen, -⟩ := mods_refresh_exact (ModManager.mk "/d" "/d/Mods" [])
    [⟨"a.zip", true, [("modinfo.json", some (.obj [("Name", .str "x")]))]⟩,
     ⟨"note.txt", false, []⟩]
    (by
      intro f hf hz
      simp only [List.mem_cons, List.not_mem_nil, or_false] at hf
      rcases hf with rfl | rfl
      · exact ⟨⟨"a.zip", [("name", .str "x")]⟩, rfl⟩
      · exact absurd hz (by decide))
  exact ⟨ms, hms, hlen⟩

/-- C4, counterexample: lookup is not total over all scanner states — when a
record's `name` metadata is the number `5`, `.lower()` raises
`AttributeError`, so the lookup raises instead of returning the (empty) list
of matches. -/
theorem mods_get_nonstring_counterexample :
    (ModManager.mk "/d" "/d/Mods" [⟨"m.zip", [("name", Json.num 5)]⟩]).mods_get
        "x" = .error .attributeError ∧
    (Except.error .attributeError : Except PyError (List Mod)) ≠ .ok [] :=
  ⟨rfl, fun h => by cases h⟩

/-- C4, amended: for every scanner state in which each record's `name` and
`modid` fields hold strings (an absent field reads as `''`), lookup returns
exactly the records whose `name` or `modid` equals the query
case-insensitively, and in particular the empty list when none matches. -/
theorem mods_get_case_insensitive (mgr : ModManager) (q : String)
    (h : ∀ m ∈ mgr.mods, (∃ s, m.getattr "name" = .str s) ∧
      (∃ t, m.getattr "modid" = .str t)) :
    mgr.mods_get q = .ok (mgr.mods.filter (specMatch q)) := by
  unfold ModManager.mods_get
  rw [selectMods_ok (pyLower q) mgr.mods h]
  congr 1
  apply List.filter_congr
  intro m _
  unfold specMatch
  rw [string_beq_comm (pyLower q) (pyLower (fieldStr m "name")),
    string_beq_comm (pyLower q) (pyLower (fieldStr m "modid"))]

/-- C4, witness: a single record with name `Test Mod` and modid `testmod` is
found by the query `TESTMOD`. -/
theorem mods_get_case_insensitive_witness :
    (ModManager.mk "/d" "/d/Mods"
        [⟨"a.zip", [("name", .str "Test Mod"), ("modid", .str "testmod")]⟩]
      ).mods_get "TESTMOD"
      = .ok [⟨"a.zip", [("name", .str "Test Mod"), ("modid", .str "testmod")]⟩] := by
  have h := mods_get_case_insensitive
    (ModManager.mk "/d" "/d/Mods"
      [⟨"a.zip", [("name", .str "Test Mod"), ("modid", .str "testmod")]⟩])
    "TESTMOD"
    (by
      intro m hm
      simp only [List.mem_singleton] at hm
      subst hm
      exact ⟨⟨"Test Mod", rfl⟩, ⟨"testmod", rfl⟩⟩)
  exact h.trans (by rfl)

/-- C5: for every record whose four summary fields hold strings (absent
fields read as `''`), the default summary is the single line
`name (modid) [version] - description`, with each missing or empty field
replaced by its fixed placeholder. -/
theorem print_default_line (m : Mod) (n i v d : String)
    (hn : m.getattr "name" = .str n) (hi : m.getattr "modid" = .str i)
    (hv : m.getattr "version" = .str v) (hd : m.getattr "description" = .str d) :
    m.print_default = (if n = "" then "UNKNOWN" else n) ++ " (" ++
      (if i = "" then "ModID unknown" else i) ++ ") [" ++
      (if v = "" then "Version unknown" else v) ++ "] - " ++
      (if d = "" then "No description" else d) := by
  unfold Mod.print_default
  rw [hn, hi, hv, hd, pyStr_pyOr_str, pyStr_pyOr_str, pyStr_pyOr_str,
    pyStr_pyOr_str]

/-- C5, witness: the record parsed from `b.zip ↦ {"ModID": "bare"}` prints
`UNKNOWN (bare) [Version unknown] - No description`. -/
theorem print_default_line_witness :
    (Mod.mk "b.zip" [("modid", .str "bare")]).print_default
      = "UNKNOWN (bare) [Version unknown] - No description" := by
  have h := print_default_line (Mod.mk "b.zip" [("modid", .str "bare")])
    "" "bare" "" "" rfl rfl rfl rfl
  exact h.trans (by rfl)

/-- C6, counterexample: construction does not fail *only* on a missing entry
or invalid JSON — the valid JSON content `5` (not an object) also fails,
with `AttributeError` from `.items()`; and on success the metadata is not
always every parsed entry lowercased — the keys `"Name"` and `"NAME"`
collide after lowercasing and only the later value survives. -/
theorem parse_archive_iff_counterexample :
    Mod.parse_archive ⟨"n.zip", true, [("modinfo.json", some (.num 5))]⟩
      = .error .attributeError ∧
    Mod.parse_archive ⟨"c.zip", true,
        [("modinfo.json", some (.obj [("Name", .str "a"), ("NAME", .str "b")]))]⟩
      = .ok ⟨"c.zip", [("name", .str "b")]⟩ ∧
    ([("name", Json.str "b")] : List (String × Json))
      ≠ [("Name", Json.str "a"), ("NAME", Json.str "b")].map
          (fun p => (pyLower p.1, p.2)) := by
  refine ⟨rfl, rfl, fun h => ?_⟩
  have := congrArg List.length h
  simp at this

/-- C6, amended: for a zip archive, construction succeeds iff the
`modinfo.json` entry exists, its content is valid JSON, and the parsed value
is an object; a missing entry raises `KeyError` and invalid JSON raises
`JSONDecodeError` (both propagate uncaught); and on success, when no two
keys collide after lowercasing, the metadata mapping is exactly the parsed
object's entries with every key lowercased. -/
theorem parse_archive_contract (a : DirEntry) (hz : a.isZip = true) :
    ((∃ m, Mod.parse_archive a = .ok m) ↔
      ∃ raw, a.readEntry "modinfo.json" = some (some (.obj raw))) ∧
    (a.readEntry "modinfo.json" = none →
      Mod.parse_archive a = .error .keyError) ∧
    (a.readEntry "modinfo.json" = some none →
      Mod.parse_archive a = .error .jsonDecodeError) ∧
    (∀ raw, a.readEntry "modinfo.json" = some (some (.obj raw)) →
      (raw.map fun p => pyLower p.1).Nodup →
      Mod.parse_archive a
        = .ok ⟨a.path, raw.map (fun p => (pyLower p.1, p.2))⟩) := by
  refine ⟨⟨?_, ?_⟩, ?_, ?_, ?_⟩
  · rintro ⟨m, hm⟩
    obtain ⟨-, raw, hraw, -⟩ := parse_archive_ok_shape a m hm
    exact ⟨raw, hraw⟩
  · rintro ⟨raw, hraw⟩
    refine ⟨⟨a.path, lowerKeys raw⟩, ?_⟩
    unfold Mod.parse_archive
    rw [if_pos hz, hraw]
  · intro hraw
    unfold Mod.parse_archive
    rw [if_pos hz, hraw]
  · intro hraw
    unfold Mod.parse_archive
    rw [if_pos hz, hraw]
  · intro raw hraw hnd
    unfold Mod.parse_archive
    rw [if_pos hz, hraw]
    show Except.ok (Mod.mk a.path (lowerKeys raw))
      = .ok ⟨a.path, raw.map (fun p => (pyLower p.1, p.2))⟩
    rw [lowerKeys_of_nodup raw hnd]

/-- C6, witness for the contract at the archive `a.zip ↦ {"Name": "x"}`. -/
theorem parse_archive_contract_witness :
    Mod.parse_archive
        ⟨"a.zip", true, [("modinfo.json", some (.obj [("Name", .str "x")]))]⟩
      = .ok ⟨"a.zip", [("name", .str "x")]⟩ := by
  have h := parse_archive_contract
    ⟨"a.zip", true, [("modinfo.json", some (.obj [("Name", .str "x")]))]⟩ rfl
  exact (h.2.2.2 [("Name", .str "x")] rfl (by simp)).trans (by rfl)

/-- C7: evaluating each unimplemented operation (`Mod._check_update`,
`Mod.remove`, `Mod.update`, `ModManager.mod_install`,
`ModManager.mod_remove`) at a concrete input shows that every one silently
returns `None` — none raises a not-implemented signal, contradicting the
claimed behavior. -/
theorem stub_methods_return_none :
    Mod.check_update ⟨"a.zip", []⟩ = .returnsNone ∧
    Mod.remove ⟨"a.zip", []⟩ = .returnsNone ∧
    Mod.update ⟨"a.zip", []⟩ "1.0.0" = .returnsNone ∧
    ModManager.mod_install ⟨"/d", "/d/Mods", []⟩ = .returnsNone ∧
    ModManager.mod_remove ⟨"/d", "/d/Mods", []⟩ "testmod" = .returnsNone ∧
    Mod.StubOutcome.returnsNone ≠ Mod.StubOutcome.raisesNotImplemented :=
  ⟨rfl, rfl, rfl, rfl, rfl, by decide⟩

/-- C8: the refresh replaces `self.mods` only after the whole new list is
built, so when some zip archive in the directory fails to parse, the raised
error escapes and the previously stored `mods` list is unchanged. -/
theorem mods_refresh_atomic (mgr : ModManager) (dir : List DirEntry)
    (f : DirEntry) (hf : f ∈ dir) (hz : f.isZip = true) (e : PyError)
    (he : Mod.parse_archive f = .error e) :
    (mgr.mods_refresh dir).1.mods = mgr.mods ∧
    (mgr.mods_refresh dir).2.isSome = true := by
  have hfmem : f ∈ dir.filter (fun f => f.isZip) :=
    List.mem_filter.mpr ⟨hf, by simpa using hz⟩
  obtain ⟨e', he'⟩ := buildMods_error _ f hfmem e he
  unfold ModManager.mods_refresh ModManager.mods_refresh_list
  rw [he']
  exact ⟨rfl, rfl⟩

/-- C8, witness: refreshing over a zip archive with no `modinfo.json` leaves
the stored record list as it was. -/
theorem mods_refresh_atomic_witness :
    ((ModManager.mk "/d" "/d/Mods" [⟨"old.zip", [("name", .str "Old")]⟩]
      ).mods_refresh [⟨"bad.zip", true, []⟩]).1.mods
      = [⟨"old.zip", [("name", .str "Old")]⟩] ∧
    ((ModManager.mk "/d" "/d/Mods" [⟨"old.zip", [("name", .str "Old")]⟩]
      ).mods_refresh [⟨"bad.zip", true, []⟩]).2.isSome = true :=
  mods_refresh_atomic
    (ModManager.mk "/d" "/d/Mods" [⟨"old.zip", [("name", .str "Old")]⟩])
    [⟨"bad.zip", true, []⟩] ⟨"bad.zip", true, []⟩ (by simp) rfl
    .keyError rfl

/-- C9: the presentation operations only write output and leave the record
unchanged — the archive path and metadata mapping are identical before and
after either operation — and the full dump prints the archive-path header, a
blank line, then every metadata key/value pair in the mapping's stored
order. -/
theorem print_ops_frame (m : Mod) :
    (Mod.print_default_run m).1.archive = m.archive ∧
    (Mod.print_default_run m).1.modinfo = m.modinfo ∧
    (Mod.print_all_run m).1.archive = m.archive ∧
    (Mod.print_all_run m).1.modinfo = m.modinfo ∧
    (Mod.print_all_run m).2 =
      ("Mod located at \"" ++ m.archive ++ "\":") :: "" ::
        m.modinfo.map (fun p => p.1 ++ ": " ++ pyStr p.2) :=
  ⟨rfl, rfl, rfl, rfl, rfl⟩

/-- C10, counterexample: for the empty query the code returns the records in
which *either* field reads as the empty string, not only those where both
do — a record with name `X` and no modid is returned (its absent `modid`
reads as `''`), while the claim says it must not be (its `name` is neither
absent nor empty); and the lookup is not even total — a record whose
`modid` is the number `0` makes `.lower()` raise `AttributeError`, where
the claim predicts the empty list. -/
theorem mods_get_empty_query_counterexample :
    ((ModManager.mk "/d" "/d/Mods" [⟨"m.zip", [("name", .str "X")]⟩]).mods_get ""
      = .ok [⟨"m.zip", [("name", .str "X")]⟩] ∧
    (Except.ok [Mod.mk "m.zip" [("name", .str "X")]]
        : Except PyError (List Mod)) ≠ .ok []) ∧
    ((ModManager.mk "/d" "/d/Mods" [⟨"z.zip", [("modid", Json.num 0)]⟩]
        ).mods_get "" = .error .attributeError ∧
    (Except.error .attributeError : Except PyError (List Mod)) ≠ .ok []) := by
  refine ⟨⟨rfl, fun h => ?_⟩, rfl, fun h => by cases h⟩
  have := congrArg List.length (Except.ok.inj h)
  simp at this

/-- C10, amended: for every scanner state in which each record's `name` and
`modid` fields hold strings, the empty-string query returns exactly the
records in which the `name` field *or* the `modid` field is absent or maps
to the empty string (an absent field reads as `''`, which equals the
lowercased empty query). -/
theorem mods_get_empty_query (mgr : ModManager)
    (h : ∀ m ∈ mgr.mods, (∃ s, m.getattr "name" = .str s) ∧
      (∃ t, m.getattr "modid" = .str t)) :
    mgr.mods_get "" = .ok (mgr.mods.filter (fun m =>
      fieldStr m "name" == "" || fieldStr m "modid" == "")) := by
  unfold ModManager.mods_get
  rw [show pyLower "" = "" from rfl, selectMods_ok "" mgr.mods h]
  congr 1
  apply List.filter_congr
  intro m _
  rw [beq_empty_pyLower, beq_empty_pyLower]

/-- C10, witness: with one empty-fields record and one named record, the
empty query returns exactly the empty-fields record. -/
theorem mods_get_empty_query_witness :
    (ModManager.mk "/d" "/d/Mods"
        [⟨"e.zip", []⟩,
         ⟨"a.zip", [("name", .str "Test Mod"), ("modid", .str "testmod")]⟩]
      ).mods_get "" = .ok [⟨"e.zip", []⟩] := by
  have h := mods_get_empty_query
    (ModManager.mk "/d" "/d/Mods"
      [⟨"e.zip", []⟩,
       ⟨"a.zip", [("name", .str "Test Mod"), ("modid", .str "testmod")]⟩])
    (by
      intro m hm
      simp only [List.mem_cons, List.not_mem_nil, or_false] at hm
      rcases hm with rfl | rfl
      · exact ⟨⟨"", rfl⟩, ⟨"", rfl⟩⟩
      · exact ⟨⟨"Test Mod", rfl⟩, ⟨"testmod", rfl⟩⟩)
  exact h.trans (by rfl)

end VSModManager
